import Mathlib

/-!
Verification of libpomp (Printf Oriented Message Protocol).

The repository ships its public header `src/include/libpomp.h`, the protocol
documentation, and the build scripts; the C implementation units
(`pomp_enc.c`, `pomp_dec.c`, `pomp_msg.c`, `pomp_conn.c`, `pomp_ctx.c`) are
not present. The definitions below therefore shallowly embed the wire codec,
the message lifecycle, the connection framer, the format scanner and the
context send surface from the specification and the header's documented
contracts. Bytes are `Nat` (kept below 256 by construction or by well
formedness), machine integers use explicit `% 2^w`, fallible operations
return `Except`.
-/

namespace Pomp

/-- Error kinds surfaced by operations (spec section 7). In the C API these
are negative errno values; `operationNotPermitted` is `-EPERM`,
`notConnected` is `-ENOTCONN`. -/
inductive Err where
  | invalidArgument
  | invalidFormat
  | typeMismatch
  | invalidData
  | protocolError
  | tooLarge
  | notConnected
  | operationNotPermitted
deriving DecidableEq

/-- Little-endian serialization of a natural number on `w` bytes, least
significant byte first, as written by the encoder for integer bodies. -/
def natLE : Nat → Nat → List Nat
  | 0, _ => []
  | w + 1, v => v % 256 :: natLE w (v / 256)

/-- Little-endian deserialization of a byte list into a natural number. -/
def natFromLE : List Nat → Nat
  | [] => 0
  | b :: bs => b + 256 * natFromLE bs

theorem length_natLE (w v : Nat) : (natLE w v).length = w := by
  induction w generalizing v with
  | zero => simp [natLE]
  | succ w ih => simp [natLE, ih]

theorem natFromLE_natLE (w v : Nat) (h : v < 256 ^ w) :
    natFromLE (natLE w v) = v := by
  induction w generalizing v with
  | zero =>
    simp [natLE, natFromLE]
    omega
  | succ w ih =>
    have hdiv : v / 256 < 256 ^ w := by
      apply Nat.div_lt_of_lt_mul
      rw [pow_succ] at h
      omega
    simp [natLE, natFromLE, ih _ hdiv]
    omega

theorem take_len_append {α : Type} (xs ys : List α) :
    (xs ++ ys).take xs.length = xs := by
  simp

theorem drop_len_append {α : Type} (xs ys : List α) :
    (xs ++ ys).drop xs.length = ys := by
  simp

/-- Sign reconstruction of a two's-complement value read back as an unsigned
number: `half = 2^(w-1)`, `m = 2^w`. -/
def signedOf (half m : Nat) (u : Nat) : Int :=
  if u < half then (u : Int) else (u : Int) - (m : Int)

theorem signedOf_mod_256 (v : Int) (h1 : -128 ≤ v) (h2 : v < 128) :
    signedOf 128 256 ((v % 256).toNat) = v := by
  unfold signedOf
  split <;> omega

theorem signedOf_mod_65536 (v : Int) (h1 : -32768 ≤ v) (h2 : v < 32768) :
    signedOf 32768 65536 ((v % 65536).toNat) = v := by
  unfold signedOf
  split <;> omega

theorem signedOf_mod_2p32 (v : Int) (h1 : -2147483648 ≤ v)
    (h2 : v < 2147483648) :
    signedOf 2147483648 4294967296 ((v % 4294967296).toNat) = v := by
  unfold signedOf
  split <;> omega

theorem signedOf_mod_2p64 (v : Int) (h1 : -9223372036854775808 ≤ v)
    (h2 : v < 9223372036854775808) :
    signedOf 9223372036854775808 18446744073709551616
      ((v % 18446744073709551616).toNat) = v := by
  unfold signedOf
  split <;> omega

/-- Wire type tags (spec section 6 table). -/
inductive ArgType where
  | i8
  | u8
  | i16
  | u16
  | i32
  | u32
  | i64
  | u64
  | str
  | buf
  | f32
  | f64
  | fd
deriving DecidableEq

/-- On-wire tag byte of each argument type (spec section 6 table). -/
def tagOf : ArgType → Nat
  | .i8 => 1
  | .u8 => 2
  | .i16 => 3
  | .u16 => 4
  | .i32 => 5
  | .u32 => 6
  | .i64 => 7
  | .u64 => 8
  | .str => 9
  | .buf => 10
  | .f32 => 11
  | .f64 => 12
  | .fd => 13

/-- A typed argument value. Signed integers are `Int`, unsigned are `Nat`;
floats carry their IEEE-754 bit pattern (the codec moves float bytes
verbatim, so the bit pattern is the faithful shallow embedding); strings and
buffers are byte lists; a file descriptor carries the transferred value. -/
inductive Arg where
  | i8 (v : Int)
  | u8 (v : Nat)
  | i16 (v : Int)
  | u16 (v : Nat)
  | i32 (v : Int)
  | u32 (v : Nat)
  | i64 (v : Int)
  | u64 (v : Nat)
  | str (s : List Nat)
  | buf (b : List Nat)
  | f32 (bits : Nat)
  | f64 (bits : Nat)
  | fd (v : Int)
deriving DecidableEq

/-- The argument type of a value, i.e. the format directive that matches it. -/
def argType : Arg → ArgType
  | .i8 _ => .i8
  | .u8 _ => .u8
  | .i16 _ => .i16
  | .u16 _ => .u16
  | .i32 _ => .i32
  | .u32 _ => .u32
  | .i64 _ => .i64
  | .u64 _ => .u64
  | .str _ => .str
  | .buf _ => .buf
  | .f32 _ => .f32
  | .f64 _ => .f64
  | .fd _ => .fd

/-- Well-typedness of an argument value: machine integers lie in their
width's range, string bytes are nonzero chars (a C string cannot contain an
embedded NUL), buffer sizes fit the u32 size field. -/
def Arg.wf : Arg → Prop
  | .i8 v => -128 ≤ v ∧ v < 128
  | .u8 v => v < 256
  | .i16 v => -32768 ≤ v ∧ v < 32768
  | .u16 v => v < 65536
  | .i32 v => -2147483648 ≤ v ∧ v < 2147483648
  | .u32 v => v < 4294967296
  | .i64 v => -9223372036854775808 ≤ v ∧ v < 9223372036854775808
  | .u64 v => v < 18446744073709551616
  | .str s => ∀ b ∈ s, 0 < b ∧ b < 256
  | .buf b => b.length < 4294967296 ∧ ∀ x ∈ b, x < 256
  | .f32 bits => bits < 4294967296
  | .f64 bits => bits < 18446744073709551616
  | .fd _ => True

instance (a : Arg) : Decidable a.wf := by
  cases a <;> simp only [Arg.wf] <;> infer_instance

/-- Modelled from the spec: `pomp_encoder_write_*` in the missing encoder
unit. For each value, emit the tag byte followed by the body (spec section
4.2 and the section 6 table): integers little-endian width-correct, strings
as u32 length including the trailing NUL then the bytes then NUL (rejecting
strings longer than 65535 bytes with `TooLarge`), buffers as u32 length then
bytes, floats as their IEEE bytes, file descriptors as a u32 placeholder 0
with the descriptor value appended to the buffer's fd list. -/
def encodeArg : Arg → Except Err (List Nat × List Int)
  | .i8 v => .ok (tagOf .i8 :: natLE 1 ((v % 256).toNat), [])
  | .u8 v => .ok (tagOf .u8 :: natLE 1 (v % 256), [])
  | .i16 v => .ok (tagOf .i16 :: natLE 2 ((v % 65536).toNat), [])
  | .u16 v => .ok (tagOf .u16 :: natLE 2 (v % 65536), [])
  | .i32 v => .ok (tagOf .i32 :: natLE 4 ((v % 4294967296).toNat), [])
  | .u32 v => .ok (tagOf .u32 :: natLE 4 (v % 4294967296), [])
  | .i64 v => .ok (tagOf .i64 :: natLE 8 ((v % 18446744073709551616).toNat), [])
  | .u64 v => .ok (tagOf .u64 :: natLE 8 (v % 18446744073709551616), [])
  | .str s =>
    if s.length ≤ 65535 then
      .ok (tagOf .str :: (natLE 4 (s.length + 1) ++ (s ++ [0])), [])
    else
      .error .tooLarge
  | .buf b => .ok (tagOf .buf :: (natLE 4 (b.length % 4294967296) ++ b), [])
  | .f32 bits => .ok (tagOf .f32 :: natLE 4 (bits % 4294967296), [])
  | .f64 bits => .ok (tagOf .f64 :: natLE 8 (bits % 18446744073709551616), [])
  | .fd v => .ok (tagOf .fd :: natLE 4 0, [v])

/-- Modelled from the spec: `pomp_encoder_writev` in the missing encoder
unit; encodes the arguments in order, concatenating record bytes and
collecting duplicated file descriptors in encounter order. -/
def encodeArgs : List Arg → Except Err (List Nat × List Int)
  | [] => .ok ([], [])
  | a :: X =>
    match encodeArg a with
    | .error e => .error e
    | .ok (b, f) =>
      match encodeArgs X with
      | .error e => .error e
      | .ok (bs, fs) => .ok (b ++ bs, f ++ fs)

/-- Read exactly `n` bytes from the front of the payload; a short payload is
malformed data. -/
def readN (n : Nat) (p : List Nat) : Except Err (List Nat × List Nat) :=
  if n ≤ p.length then .ok (p.take n, p.drop n) else .error .invalidData

theorem readN_append (n : Nat) (bs rest : List Nat) (h : bs.length = n) :
    readN n (bs ++ rest) = .ok (bs, rest) := by
  subst h
  simp [readN]

theorem readN_ok {n : Nat} {p bs r : List Nat}
    (h : readN n p = .ok (bs, r)) : p = bs ++ r ∧ bs.length = n := by
  unfold readN at h
  split at h
  · rename_i hle
    injection h with h
    injection h with h1 h2
    subst h1
    subst h2
    exact ⟨(List.take_append_drop n p).symm, by simp [List.length_take]; omega⟩
  · cases h

/-- String body validation (spec section 4.2 decoder): the declared bytes
must end with the NUL terminator and contain no embedded NUL. -/
def validStrBytes (bs : List Nat) : Bool :=
  bs.getLast? == some 0 && bs.dropLast.all (fun b => b != 0)

theorem validStrBytes_append (s : List Nat) (h : ∀ b ∈ s, b ≠ 0) :
    validStrBytes (s ++ [0]) = true := by
  simp [validStrBytes, List.getLast?_concat, List.dropLast_concat, List.all_eq_true]
  exact h

/-- Read a fixed-width body of `w` bytes and build the decoded value. -/
def readFixed (w : Nat) (mk : List Nat → Arg) (p : List Nat)
    (fds : List Int) : Except Err (Arg × List Nat × List Int) :=
  match readN w p with
  | .error e => .error e
  | .ok (bs, r) => .ok (mk bs, r, fds)

/-- Modelled from the spec: body parsing of one record in the missing
decoder unit, after the tag byte was consumed and matched. Integer and float
bodies read their width in bytes; strings read the u32 length then the bytes
and validate NUL termination (`InvalidData` on failure); buffers read the
u32 length then the bytes; a file descriptor reads the u32 placeholder then
takes the next unconsumed descriptor (`InvalidData` when the fd list is
exhausted). -/
def decodeBody : ArgType → List Nat → List Int →
    Except Err (Arg × List Nat × List Int)
  | .i8, p, fds => readFixed 1 (fun bs => .i8 (signedOf 128 256 (natFromLE bs))) p fds
  | .u8, p, fds => readFixed 1 (fun bs => .u8 (natFromLE bs)) p fds
  | .i16, p, fds =>
    readFixed 2 (fun bs => .i16 (signedOf 32768 65536 (natFromLE bs))) p fds
  | .u16, p, fds => readFixed 2 (fun bs => .u16 (natFromLE bs)) p fds
  | .i32, p, fds =>
    readFixed 4 (fun bs => .i32 (signedOf 2147483648 4294967296 (natFromLE bs))) p fds
  | .u32, p, fds => readFixed 4 (fun bs => .u32 (natFromLE bs)) p fds
  | .i64, p, fds =>
    readFixed 8 (fun bs =>
      .i64 (signedOf 9223372036854775808 18446744073709551616 (natFromLE bs))) p fds
  | .u64, p, fds => readFixed 8 (fun bs => .u64 (natFromLE bs)) p fds
  | .str, p, fds =>
    match readN 4 p with
    | .error e => .error e
    | .ok (lb, r1) =>
      match readN (natFromLE lb) r1 with
      | .error e => .error e
      | .ok (sb, r2) =>
        if validStrBytes sb then .ok (.str sb.dropLast, r2, fds)
        else .error .invalidData
  | .buf, p, fds =>
    match readN 4 p with
    | .error e => .error e
    | .ok (lb, r1) =>
      match readN (natFromLE lb) r1 with
      | .error e => .error e
      | .ok (bb, r2) => .ok (.buf bb, r2, fds)
  | .f32, p, fds => readFixed 4 (fun bs => .f32 (natFromLE bs)) p fds
  | .f64, p, fds => readFixed 8 (fun bs => .f64 (natFromLE bs)) p fds
  | .fd, p, fds =>
    match readN 4 p with
    | .error e => .error e
    | .ok (_, r) =>
      match fds with
      | [] => .error .invalidData
      | f :: fr => .ok (.fd f, r, fr)

/-- Modelled from the spec: decoding of one record in the missing decoder
unit. Reads the next tag byte and verifies it against the current directive;
any mismatch (including width or sign mismatch, which change the tag) fails
with `TypeMismatch` (spec section 4.2). -/
def decodeArg (ty : ArgType) (p : List Nat) (fds : List Int) :
    Except Err (Arg × List Nat × List Int) :=
  match p with
  | [] => .error .invalidData
  | t :: p1 =>
    if t = tagOf ty then decodeBody ty p1 fds else .error .typeMismatch

/-- Modelled from the spec: `pomp_decoder_readv` in the missing decoder
unit; decodes one record per directive in lockstep, propagating the first
error; on error, no output argument is returned (the C decoder frees the
outputs it had already allocated before returning the error). -/
def decodeArgs : List ArgType → List Nat → List Int →
    Except Err (List Arg × List Nat × List Int)
  | [], p, fds => .ok ([], p, fds)
  | ty :: tys, p, fds =>
    match decodeArg ty p fds with
    | .error e => .error e
    | .ok (a, p1, f1) =>
      match decodeArgs tys p1 f1 with
      | .error e => .error e
      | .ok (args, p2, f2) => .ok (a :: args, p2, f2)

theorem natFromLE_natLE1 (v : Nat) (h : v < 256) :
    natFromLE (natLE 1 v) = v :=
  natFromLE_natLE 1 v (by simpa using h)

theorem natFromLE_natLE2 (v : Nat) (h : v < 65536) :
    natFromLE (natLE 2 v) = v :=
  natFromLE_natLE 2 v (by norm_num; omega)

theorem natFromLE_natLE4 (v : Nat) (h : v < 4294967296) :
    natFromLE (natLE 4 v) = v :=
  natFromLE_natLE 4 v (by norm_num; omega)

theorem natFromLE_natLE8 (v : Nat) (h : v < 18446744073709551616) :
    natFromLE (natLE 8 v) = v :=
  natFromLE_natLE 8 v (by norm_num; omega)

theorem readFixed_append (w : Nat) (mk : List Nat → Arg) (bs rest : List Nat)
    (fds : List Int) (h : bs.length = w) :
    readFixed w mk (bs ++ rest) fds = .ok (mk bs, rest, fds) := by
  unfold readFixed
  rw [readN_append w bs rest h]

/-- One encoded record decodes back to the value it came from, consuming
exactly its own bytes and descriptors, whatever follows. -/
theorem decodeArg_encodeArg (a : Arg) (hwf : a.wf) (eb : List Nat)
    (ef : List Int) (he : encodeArg a = .ok (eb, ef)) (rest : List Nat)
    (fr : List Int) :
    decodeArg (argType a) (eb ++ rest) (ef ++ fr) = .ok (a, rest, fr) := by
  cases a with
  | i8 v =>
    simp only [Arg.wf] at hwf
    simp only [encodeArg, Except.ok.injEq, Prod.mk.injEq] at he
    obtain ⟨rfl, rfl⟩ := he
    simp only [argType, List.cons_append, List.nil_append, decodeArg]
    rw [if_pos trivial]
    simp only [decodeBody]
    rw [readFixed_append 1 _ _ rest fr (length_natLE 1 _)]
    rw [natFromLE_natLE1 _ (by omega), signedOf_mod_256 v hwf.1 hwf.2]
  | u8 v =>
    simp only [Arg.wf] at hwf
    simp only [encodeArg, Except.ok.injEq, Prod.mk.injEq] at he
    obtain ⟨rfl, rfl⟩ := he
    simp only [argType, List.cons_append, List.nil_append, decodeArg]
    rw [if_pos trivial]
    simp only [decodeBody]
    rw [readFixed_append 1 _ _ rest fr (length_natLE 1 _)]
    rw [natFromLE_natLE1 _ (by omega), Nat.mod_eq_of_lt hwf]
  | i16 v =>
    simp only [Arg.wf] at hwf
    simp only [encodeArg, Except.ok.injEq, Prod.mk.injEq] at he
    obtain ⟨rfl, rfl⟩ := he
    simp only [argType, List.cons_append, List.nil_append, decodeArg]
    rw [if_pos trivial]
    simp only [decodeBody]
    rw [readFixed_append 2 _ _ rest fr (length_natLE 2 _)]
    rw [natFromLE_natLE2 _ (by omega), signedOf_mod_65536 v hwf.1 hwf.2]
  | u16 v =>
    simp only [Arg.wf] at hwf
    simp only [encodeArg, Except.ok.injEq, Prod.mk.injEq] at he
    obtain ⟨rfl, rfl⟩ := he
    simp only [argType, List.cons_append, List.nil_append, decodeArg]
    rw [if_pos trivial]
    simp only [decodeBody]
    rw [readFixed_append 2 _ _ rest fr (length_natLE 2 _)]
    rw [natFromLE_natLE2 _ (by omega), Nat.mod_eq_of_lt hwf]
  | i32 v =>
    simp only [Arg.wf] at hwf
    simp only [encodeArg, Except.ok.injEq, Prod.mk.injEq] at he
    obtain ⟨rfl, rfl⟩ := he
    simp only [argType, List.cons_append, List.nil_append, decodeArg]
    rw [if_pos trivial]
    simp only [decodeBody]
    rw [readFixed_append 4 _ _ rest fr (length_natLE 4 _)]
    rw [natFromLE_natLE4 _ (by omega), signedOf_mod_2p32 v hwf.1 hwf.2]
  | u32 v =>
    simp only [Arg.wf] at hwf
    simp only [encodeArg, Except.ok.injEq, Prod.mk.injEq] at he
    obtain ⟨rfl, rfl⟩ := he
    simp only [argType, List.cons_append, List.nil_append, decodeArg]
    rw [if_pos trivial]
    simp only [decodeBody]
    rw [readFixed_append 4 _ _ rest fr (length_natLE 4 _)]
    rw [natFromLE_natLE4 _ (by omega), Nat.mod_eq_of_lt hwf]
  | i64 v =>
    simp only [Arg.wf] at hwf
    simp only [encodeArg, Except.ok.injEq, Prod.mk.injEq] at he
    obtain ⟨rfl, rfl⟩ := he
    simp only [argType, List.cons_append, List.nil_append, decodeArg]
    rw [if_pos trivial]
    simp only [decodeBody]
    rw [readFixed_append 8 _ _ rest fr (length_natLE 8 _)]
    rw [natFromLE_natLE8 _ (by omega), signedOf_mod_2p64 v hwf.1 hwf.2]
  | u64 v =>
    simp only [Arg.wf] at hwf
    simp only [encodeArg, Except.ok.injEq, Prod.mk.injEq] at he
    obtain ⟨rfl, rfl⟩ := he
    simp only [argType, List.cons_append, List.nil_append, decodeArg]
    rw [if_pos trivial]
    simp only [decodeBody]
    rw [readFixed_append 8 _ _ rest fr (length_natLE 8 _)]
    rw [natFromLE_natLE8 _ (by omega), Nat.mod_eq_of_lt hwf]
  | f32 bits =>
    simp only [Arg.wf] at hwf
    simp only [encodeArg, Except.ok.injEq, Prod.mk.injEq] at he
    obtain ⟨rfl, rfl⟩ := he
    simp only [argType, List.cons_append, List.nil_append, decodeArg]
    rw [if_pos trivial]
    simp only [decodeBody]
    rw [readFixed_append 4 _ _ rest fr (length_natLE 4 _)]
    rw [natFromLE_natLE4 _ (by omega), Nat.mod_eq_of_lt hwf]
  | f64 bits =>
    simp only [Arg.wf] at hwf
    simp only [encodeArg, Except.ok.injEq, Prod.mk.injEq] at he
    obtain ⟨rfl, rfl⟩ := he
    simp only [argType, List.cons_append, List.nil_append, decodeArg]
    rw [if_pos trivial]
    simp only [decodeBody]
    rw [readFixed_append 8 _ _ rest fr (length_natLE 8 _)]
    rw [natFromLE_natLE8 _ (by omega), Nat.mod_eq_of_lt hwf]
  | str s =>
    simp only [Arg.wf] at hwf
    by_cases hlen : s.length ≤ 65535
    · simp only [encodeArg, if_pos hlen, Except.ok.injEq, Prod.mk.injEq] at he
      obtain ⟨rfl, rfl⟩ := he
      simp only [argType, List.cons_append, List.nil_append, decodeArg]
      rw [if_pos trivial]
      rw [List.append_assoc (natLE 4 (s.length + 1)) (s ++ [0]) rest]
      have h1 : readN 4 (natLE 4 (s.length + 1) ++ ((s ++ [0]) ++ rest)) =
          .ok (natLE 4 (s.length + 1), (s ++ [0]) ++ rest) :=
        readN_append _ _ _ (length_natLE 4 _)
      have h2 : natFromLE (natLE 4 (s.length + 1)) = s.length + 1 :=
        natFromLE_natLE4 _ (by omega)
      have h3 : readN (s.length + 1) ((s ++ [0]) ++ rest) =
          .ok (s ++ [0], rest) :=
        readN_append _ _ _ (by simp)
      have h4 : validStrBytes (s ++ [0]) = true :=
        validStrBytes_append s (fun b hb => (hwf b hb).1.ne')
      simp only [List.append_assoc, List.singleton_append] at h1 h3
      simp [decodeBody, h1, h2, h3, h4, List.dropLast_concat]
    · simp only [encodeArg, if_neg hlen] at he
      cases he
  | buf bb =>
    simp only [Arg.wf] at hwf
    simp only [encodeArg, Except.ok.injEq, Prod.mk.injEq] at he
    obtain ⟨rfl, rfl⟩ := he
    simp only [argType, List.cons_append, List.nil_append, decodeArg]
    rw [if_pos trivial]
    rw [Nat.mod_eq_of_lt hwf.1]
    rw [List.append_assoc (natLE 4 bb.length) bb rest]
    have h1 : readN 4 (natLE 4 bb.length ++ (bb ++ rest)) =
        .ok (natLE 4 bb.length, bb ++ rest) :=
      readN_append _ _ _ (length_natLE 4 _)
    have h2 : natFromLE (natLE 4 bb.length) = bb.length :=
      natFromLE_natLE4 _ hwf.1
    have h3 : readN bb.length (bb ++ rest) = .ok (bb, rest) :=
      readN_append _ _ _ rfl
    simp [decodeBody, h1, h2, h3]
  | fd v =>
    simp only [encodeArg, Except.ok.injEq, Prod.mk.injEq] at he
    obtain ⟨rfl, rfl⟩ := he
    simp only [argType, List.cons_append, List.singleton_append, decodeArg]
    rw [if_pos trivial]
    have h1 : readN 4 (natLE 4 0 ++ rest) = .ok (natLE 4 0, rest) :=
      readN_append _ _ _ (length_natLE 4 _)
    simp [decodeBody, h1]

/-- Decoding after encoding, generalized over trailing bytes and trailing
descriptors. -/
theorem decodeArgs_encodeArgs (X : List Arg) (hwf : ∀ a ∈ X, a.wf) :
    ∀ (p : List Nat) (fds : List Int), encodeArgs X = .ok (p, fds) →
    ∀ (rest : List Nat) (fr : List Int),
    decodeArgs (X.map argType) (p ++ rest) (fds ++ fr) = .ok (X, rest, fr) := by
  induction X with
  | nil =>
    intro p fds he rest fr
    simp only [encodeArgs, Except.ok.injEq, Prod.mk.injEq] at he
    obtain ⟨rfl, rfl⟩ := he
    simp [decodeArgs]
  | cons a X ih =>
    intro p fds he rest fr
    unfold encodeArgs at he
    split at he
    · exact Except.noConfusion he
    · rename_i ba fa heq1
      split at he
      · exact Except.noConfusion he
      · rename_i bs fs heq2
        injection he with he'
        obtain ⟨h1, h2⟩ := Prod.mk.injEq .. |>.mp he'
        subst h1
        subst h2
        have hda := decodeArg_encodeArg a (hwf a (by simp)) ba fa heq1
          (bs ++ rest) (fs ++ fr)
        have hrec := ih (fun x hx => hwf x (by simp [hx])) bs fs heq2 rest fr
        simp only [List.map_cons, List.append_assoc, decodeArgs, hda, hrec]

theorem readFixed_consumed {w : Nat} {mk : List Nat → Arg} {p : List Nat}
    {fds : List Int} {a : Arg} {rp : List Nat} {rf : List Int}
    (h : readFixed w mk p fds = .ok (a, rp, rf)) : ∃ c, p = c ++ rp := by
  unfold readFixed at h
  cases hr : readN w p with
  | error e =>
    rw [hr] at h
    exact Except.noConfusion h
  | ok br =>
    obtain ⟨bs, rr⟩ := br
    rw [hr] at h
    simp only [Except.ok.injEq, Prod.mk.injEq] at h
    obtain ⟨-, h2, -⟩ := h
    subst h2
    exact ⟨bs, (readN_ok hr).1⟩

theorem decodeBody_consumed {ty : ArgType} {p : List Nat} {fds : List Int}
    {a : Arg} {rp : List Nat} {rf : List Int}
    (h : decodeBody ty p fds = .ok (a, rp, rf)) : ∃ c, p = c ++ rp := by
  cases ty with
  | i8 => exact readFixed_consumed h
  | u8 => exact readFixed_consumed h
  | i16 => exact readFixed_consumed h
  | u16 => exact readFixed_consumed h
  | i32 => exact readFixed_consumed h
  | u32 => exact readFixed_consumed h
  | i64 => exact readFixed_consumed h
  | u64 => exact readFixed_consumed h
  | f32 => exact readFixed_consumed h
  | f64 => exact readFixed_consumed h
  | str =>
    simp only [decodeBody] at h
    split at h
    · exact Except.noConfusion h
    · rename_i lb r1 h4
      split at h
      · exact Except.noConfusion h
      · rename_i sb r2 hn
        split at h
        · simp only [Except.ok.injEq, Prod.mk.injEq] at h
          obtain ⟨-, h2, -⟩ := h
          subst h2
          refine ⟨lb ++ sb, ?_⟩
          rw [(readN_ok h4).1, (readN_ok hn).1, List.append_assoc]
        · exact Except.noConfusion h
  | buf =>
    simp only [decodeBody] at h
    split at h
    · exact Except.noConfusion h
    · rename_i lb r1 h4
      split at h
      · exact Except.noConfusion h
      · rename_i bb r2 hn
        simp only [Except.ok.injEq, Prod.mk.injEq] at h
        obtain ⟨-, h2, -⟩ := h
        subst h2
        refine ⟨lb ++ bb, ?_⟩
        rw [(readN_ok h4).1, (readN_ok hn).1, List.append_assoc]
  | fd =>
    simp only [decodeBody] at h
    split at h
    · exact Except.noConfusion h
    · rename_i bs r h4
      split at h
      · exact Except.noConfusion h
      · rename_i f fr2
        simp only [Except.ok.injEq, Prod.mk.injEq] at h
        obtain ⟨-, h2, -⟩ := h
        subst h2
        exact ⟨bs, (readN_ok h4).1⟩

theorem decodeArg_consumed {ty : ArgType} {p : List Nat} {fds : List Int}
    {a : Arg} {rp : List Nat} {rf : List Int}
    (h : decodeArg ty p fds = .ok (a, rp, rf)) : ∃ c, p = c ++ rp := by
  cases p with
  | nil => exact Except.noConfusion h
  | cons t p1 =>
    simp only [decodeArg] at h
    by_cases ht : t = tagOf ty
    · rw [if_pos ht] at h
      obtain ⟨c, hc⟩ := decodeBody_consumed h
      exact ⟨t :: c, by rw [hc]; rfl⟩
    · rw [if_neg ht] at h
      exact Except.noConfusion h

theorem decodeArgs_ok {tys : List ArgType} :
    ∀ {p : List Nat} {fds : List Int} {out : List Arg} {rp : List Nat}
    {rf : List Int}, decodeArgs tys p fds = .ok (out, rp, rf) →
    out.length = tys.length ∧ ∃ c, p = c ++ rp := by
  induction tys with
  | nil =>
    intro p fds out rp rf h
    simp only [decodeArgs, Except.ok.injEq, Prod.mk.injEq] at h
    obtain ⟨h1, h2, h3⟩ := h
    subst h1
    subst h2
    exact ⟨rfl, ⟨[], rfl⟩⟩
  | cons ty tys ih =>
    intro p fds out rp rf h
    simp only [decodeArgs] at h
    split at h
    · exact Except.noConfusion h
    · rename_i a p1 f1 h1
      split at h
      · exact Except.noConfusion h
      · rename_i args p2 f2 h2
        simp only [Except.ok.injEq, Prod.mk.injEq] at h
        obtain ⟨ho, hp, hf⟩ := h
        subst ho
        subst hp
        obtain ⟨hl, c1, hc1⟩ := ih h2
        obtain ⟨c0, hc0⟩ := decodeArg_consumed h1
        refine ⟨by simp [hl], ⟨c0 ++ c1, ?_⟩⟩
        rw [hc0, hc1, List.append_assoc]

/-- C1: for every typed argument sequence `X` and the format matching it,
encoding `X` and then decoding the resulting payload (and transferred
descriptor list) with the same format yields `X` back exactly: bytewise for
integers and floats (floats modelled by their IEEE-754 bit patterns, which
the codec moves verbatim), content equality for strings and buffers, and
value transfer for file descriptors. -/
theorem pomp_c1_roundtrip (X : List Arg) (p : List Nat) (fds : List Int)
    (hwf : ∀ a ∈ X, a.wf) (he : encodeArgs X = .ok (p, fds)) :
    decodeArgs (X.map argType) p fds = .ok (X, [], []) := by
  have h := decodeArgs_encodeArgs X hwf p fds he [] []
  simpa using h

theorem pomp_c1_roundtrip_witness :
    decodeArgs ([Arg.u32 10, Arg.str [80, 73, 78, 71], Arg.i8 (-5),
      Arg.fd 7].map argType)
      [6, 10, 0, 0, 0, 9, 5, 0, 0, 0, 80, 73, 78, 71, 0, 1, 251,
        13, 0, 0, 0, 0] [7] =
      .ok ([Arg.u32 10, Arg.str [80, 73, 78, 71], Arg.i8 (-5), Arg.fd 7],
        [], []) :=
  pomp_c1_roundtrip _ _ _ (by decide) (by rfl)

/-- C2: decoding with a directive that does not match the next embedded tag
fails with `TypeMismatch` after inspecting only the tag byte (the result is
the same for every continuation of the payload, so the decoder never reads
past the payload end to report it); and a successful decode always returns
one output per directive while consuming only a prefix of the payload — an
error result carries no partially-decoded argument list at all (the C
decoder frees the outputs it had allocated before returning the error). -/
theorem pomp_c2_mismatch :
    (∀ (ty : ArgType) (tys : List ArgType) (t : Nat) (p : List Nat)
      (fds : List Int), t ≠ tagOf ty →
      decodeArgs (ty :: tys) (t :: p) fds = .error .typeMismatch) ∧
    (∀ (tys : List ArgType) (p : List Nat) (fds : List Int)
      (out : List Arg) (rp : List Nat) (rf : List Int),
      decodeArgs tys p fds = .ok (out, rp, rf) →
      out.length = tys.length ∧ ∃ c, p = c ++ rp) := by
  constructor
  · intro ty tys t p fds hne
    simp [decodeArgs, decodeArg, hne]
  · intro tys p fds out rp rf h
    exact decodeArgs_ok h

theorem pomp_c2_mismatch_witness :
    decodeArgs [ArgType.i8] [2, 0] [] = .error .typeMismatch ∧
    ([Arg.u8 7].length = [ArgType.u8].length ∧
      ∃ c, [2, 7] = c ++ ([] : List Nat)) :=
  ⟨pomp_c2_mismatch.1 ArgType.i8 [] 2 [0] [] (by decide),
   pomp_c2_mismatch.2 [ArgType.u8] [2, 7] [] [Arg.u8 7] [] [] (by rfl)⟩

/-- C5: the encoder accepts any string of length at most 65535 bytes,
writing the STR record as the tag, the u32 length including the trailing
NUL, the bytes and the NUL, and that record decodes back to the same string;
any longer string is rejected with `TooLarge`. -/
theorem pomp_c5_write_str (s : List Nat) (hbytes : ∀ b ∈ s, 0 < b ∧ b < 256) :
    (s.length ≤ 65535 →
      encodeArg (.str s) =
        .ok (tagOf .str :: (natLE 4 (s.length + 1) ++ (s ++ [0])), []) ∧
      decodeArg .str (tagOf .str :: (natLE 4 (s.length + 1) ++ (s ++ [0])))
        [] = .ok (.str s, [], [])) ∧
    (65535 < s.length → encodeArg (.str s) = .error .tooLarge) := by
  constructor
  · intro hlen
    have he : encodeArg (.str s) =
        .ok (tagOf .str :: (natLE 4 (s.length + 1) ++ (s ++ [0])), []) := by
      simp [encodeArg, hlen]
    refine ⟨he, ?_⟩
    have h := decodeArg_encodeArg (.str s) (by simpa [Arg.wf] using hbytes)
      _ _ he [] []
    simpa using h
  · intro hlen
    simp [encodeArg, Nat.not_le.mpr hlen]

theorem pomp_c5_write_str_witness :
    decodeArg ArgType.str
      (tagOf .str :: (natLE 4 ((List.replicate 65535 65).length + 1) ++
        (List.replicate 65535 65 ++ [0]))) [] =
      .ok (.str (List.replicate 65535 65), [], []) ∧
    decodeArg ArgType.str
      (tagOf .str :: (natLE 4 (([] : List Nat).length + 1) ++
        (([] : List Nat) ++ [0]))) [] = .ok (.str [], [], []) ∧
    encodeArg (.str (List.replicate 65536 65)) = .error .tooLarge :=
  ⟨((pomp_c5_write_str (List.replicate 65535 65)
      (by
        intro b hb
        rcases List.eq_of_mem_replicate hb with rfl
        decide)).1 (by rw [List.length_replicate])).2,
   ((pomp_c5_write_str [] (by intro b hb; cases hb)).1 (by
      exact Nat.le_of_lt (by decide))).2,
   (pomp_c5_write_str (List.replicate 65536 65)
      (by
        intro b hb
        rcases List.eq_of_mem_replicate hb with rfl
        decide)).2 (by rw [List.length_replicate]; omega)⟩

/-- Message lifecycle state (spec section 3 data model). -/
inductive MsgState where
  | empty
  | writing
  | finished
  | reading
deriving DecidableEq

/-- A message: header (magic, id, size, 12 bytes once finished), payload
bytes, owned descriptor list, lifecycle state (spec section 3). -/
structure PompMsg where
  msgid : Nat
  hdr : List Nat
  payload : List Nat
  fds : List Int
  st : MsgState
deriving DecidableEq

/-- Header magic, the bytes of "POMP". -/
def POMP_MSG_MAGIC : Nat := 0x504F4D50

/-- Modelled from the spec: `pomp_msg_new` in the missing message unit;
fresh messages are Empty. -/
def pomp_msg_new : PompMsg :=
  ⟨0, [], [], [], .empty⟩

/-- Modelled from the spec: `pomp_msg_init` in the missing message unit;
transitions Empty to Writing and reserves the 12-byte header. -/
def pomp_msg_init (m : PompMsg) (id : Nat) : Except Err PompMsg :=
  if m.st = .empty then
    .ok ⟨id, List.replicate 12 0, [], [], .writing⟩
  else .error .operationNotPermitted

/-- Modelled from the spec: `pomp_msg_finish` in the missing message unit;
patches the header (magic, id and size = 12 + payload length, each a u32
little-endian) and transitions Writing to Finished. -/
def pomp_msg_finish (m : PompMsg) : Except Err PompMsg :=
  if m.st = .writing then
    .ok {m with
      hdr := natLE 4 POMP_MSG_MAGIC ++
        (natLE 4 (m.msgid % 4294967296) ++
          natLE 4 ((12 + m.payload.length) % 4294967296)),
      st := .finished}
  else .error .operationNotPermitted

/-- Modelled from the spec and the header contract of `pomp_msg_finish`
(libpomp.h lines 703-710): any write operation after finish returns -EPERM
and leaves the message untouched; while Writing, a write appends one encoded
record. -/
def pomp_msg_write_arg (m : PompMsg) (a : Arg) : Except Err Unit × PompMsg :=
  if m.st = .writing then
    match encodeArg a with
    | .error e => (.error e, m)
    | .ok (b, f) =>
      (.ok (), {m with payload := m.payload ++ b, fds := m.fds ++ f})
  else (.error .operationNotPermitted, m)

/-- Modelled from the spec: `pomp_msg_readv` in the missing message unit;
reads are allowed only in the Finished state (spec section 3 invariant) and
delegate to the decoder. -/
def pomp_msg_readv (m : PompMsg) (tys : List ArgType) :
    Except Err (List Arg) :=
  if m.st = .finished then
    match decodeArgs tys m.payload m.fds with
    | .error e => .error e
    | .ok (args, _, _) => .ok args
  else .error .operationNotPermitted

theorem drop_two_blocks {α : Type} (xs ys zs : List α) (hx : xs.length = 4)
    (hy : ys.length = 4) : (xs ++ (ys ++ zs)).drop 8 = zs := by
  rw [← List.append_assoc]
  have h : (xs ++ ys).length = 8 := by simp [hx, hy]
  calc ((xs ++ ys) ++ zs).drop 8
      = ((xs ++ ys) ++ zs).drop (xs ++ ys).length := by rw [h]
    _ = zs := drop_len_append _ _

/-- C3: after a successful `pomp_msg_finish`, the size field of the header
(u32 little-endian at offset 8) equals 12 plus the payload length, and the
magic field (u32 at offset 0) equals 0x504F4D50. -/
theorem pomp_c3_finish (m m' : PompMsg) (h : pomp_msg_finish m = .ok m')
    (hsz : 12 + m.payload.length < 4294967296) :
    natFromLE (m'.hdr.take 4) = 0x504F4D50 ∧
    natFromLE (m'.hdr.drop 8) = 12 + m'.payload.length := by
  unfold pomp_msg_finish at h
  split at h
  · simp only [Except.ok.injEq] at h
    subst h
    dsimp only
    constructor
    · have t1 := take_len_append (natLE 4 POMP_MSG_MAGIC)
        (natLE 4 (m.msgid % 4294967296) ++
          natLE 4 ((12 + m.payload.length) % 4294967296))
      rw [length_natLE] at t1
      rw [t1, natFromLE_natLE4 _ (by decide)]
      rfl
    · rw [drop_two_blocks _ _ _ (length_natLE 4 _) (length_natLE 4 _)]
      rw [Nat.mod_eq_of_lt hsz, natFromLE_natLE4 _ hsz]
  · exact Except.noConfusion h

theorem pomp_c3_finish_witness :
    natFromLE ((PompMsg.mk 3 [80, 77, 79, 80, 3, 0, 0, 0, 14, 0, 0, 0]
      [2, 7] [] MsgState.finished).hdr.take 4) = 0x504F4D50 ∧
    natFromLE ((PompMsg.mk 3 [80, 77, 79, 80, 3, 0, 0, 0, 14, 0, 0, 0]
      [2, 7] [] MsgState.finished).hdr.drop 8) =
      12 + (PompMsg.mk 3 [80, 77, 79, 80, 3, 0, 0, 0, 14, 0, 0, 0]
      [2, 7] [] MsgState.finished).payload.length :=
  pomp_c3_finish ⟨3, List.replicate 12 0, [2, 7], [], .writing⟩
    ⟨3, [80, 77, 79, 80, 3, 0, 0, 0, 14, 0, 0, 0], [2, 7], [], .finished⟩
    (by rfl) (by decide)

/-- C9: once a message is Finished, every write or encode operation on it
fails with -EPERM and leaves the header and payload unchanged; and a read
succeeds only on a message in the Finished state. -/
theorem pomp_c9_finished (m : PompMsg) :
    (m.st = .finished → ∀ a : Arg,
      pomp_msg_write_arg m a = (.error .operationNotPermitted, m)) ∧
    (∀ (tys : List ArgType) (args : List Arg),
      pomp_msg_readv m tys = .ok args → m.st = .finished) := by
  constructor
  · intro hst a
    simp [pomp_msg_write_arg, hst]
  · intro tys args h
    unfold pomp_msg_readv at h
    by_cases hst : m.st = .finished
    · exact hst
    · rw [if_neg hst] at h
      exact Except.noConfusion h

theorem pomp_c9_finished_witness :
    pomp_msg_write_arg (PompMsg.mk 1 [] [2, 7] [] MsgState.finished)
      (Arg.u8 3) =
      (.error .operationNotPermitted,
        PompMsg.mk 1 [] [2, 7] [] MsgState.finished) ∧
    (PompMsg.mk 1 [] [2, 7] [] MsgState.finished).st = .finished :=
  ⟨(pomp_c9_finished _).1 rfl _,
   (pomp_c9_finished _).2 [ArgType.u8] [Arg.u8 7] (by rfl)⟩

/-- Context kinds (spec section 3). -/
inductive CtxKind where
  | unset
  | server
  | client
  | dgram
deriving DecidableEq

/-- A context: its kind and the identifiers of its live connections
(a server owns many, a client at most one). -/
structure PompCtx where
  kind : CtxKind
  conns : List Nat

/-- Modelled from the spec and the header contract of `pomp_ctx_send_msg`
(libpomp.h lines 223-233): a server broadcasts to all connected clients
and, with no connection, silently loses the message and returns success; a
client with no connection returns -ENOTCONN. The result lists the
per-connection transmissions. -/
def pomp_ctx_send_msg (ctx : PompCtx) (m : PompMsg) :
    Except Err (List (Nat × PompMsg)) :=
  match ctx.kind with
  | .server => .ok (ctx.conns.map (fun c => (c, m)))
  | .client =>
    match ctx.conns with
    | [] => .error .notConnected
    | c :: _ => .ok [(c, m)]
  | _ => .error .invalidArgument

/-- C8: sending through a client context with no live connection fails with
`NotConnected` (-ENOTCONN) and transmits nothing (an error result carries no
transmissions), while the same send on a server context with zero connected
peers succeeds and transmits to nobody — the message is silently lost. -/
theorem pomp_c8_send (ctx : PompCtx) (m : PompMsg) :
    (ctx.kind = .client → ctx.conns = [] →
      pomp_ctx_send_msg ctx m = .error .notConnected) ∧
    (ctx.kind = .server → ctx.conns = [] →
      pomp_ctx_send_msg ctx m = .ok []) := by
  constructor
  · intro hk hc
    simp [pomp_ctx_send_msg, hk, hc]
  · intro hk hc
    simp [pomp_ctx_send_msg, hk, hc]

theorem pomp_c8_send_witness :
    pomp_ctx_send_msg ⟨CtxKind.client, []⟩ pomp_msg_new =
      .error .notConnected ∧
    pomp_ctx_send_msg ⟨CtxKind.server, []⟩ pomp_msg_new = .ok [] :=
  ⟨(pomp_c8_send _ _).1 rfl rfl, (pomp_c8_send _ _).2 rfl rfl⟩

/-- Modelled from the header contract of `pomp_msg_get_id` (libpomp.h lines
372-377): returns the id of the message, or 0 in case of error (such as a
NULL message); the uint32_t return value is the only channel. -/
def pomp_msg_get_id : Option PompMsg → Nat
  | none => 0
  | some m => m.msgid

/-- C10: `pomp_msg_get_id` returns 0 on an invalid (NULL) message rather
than a distinct error, and a legitimate finished message whose id is 0
yields the same value, so the caller cannot distinguish the two cases at
this interface. -/
theorem pomp_c10_get_id :
    pomp_msg_get_id none = 0 ∧
    ∃ m0 m1 : PompMsg, pomp_msg_init pomp_msg_new 0 = .ok m0 ∧
      pomp_msg_finish m0 = .ok m1 ∧
      pomp_msg_get_id (some m1) = pomp_msg_get_id none := by
  exact ⟨rfl, ⟨0, List.replicate 12 0, [], [], .writing⟩,
    ⟨0, [80, 77, 79, 80, 0, 0, 0, 0, 12, 0, 0, 0], [], [], .finished⟩,
    rfl, rfl, rfl⟩

/-- Maximum accepted message size for the framer: 256 MiB (spec 4.4). -/
def sizeMax : Nat := 268435456

/-- Header validation performed in the NeedHeader state (spec 4.4). -/
def headerOk (magic size : Nat) : Prop :=
  magic = POMP_MSG_MAGIC ∧ 12 ≤ size ∧ size ≤ sizeMax

instance (magic size : Nat) : Decidable (headerOk magic size) := by
  unfold headerOk
  infer_instance

/-- Context events delivered to the callback. -/
inductive Evt where
  | connected
  | disconnected
  | msg (msgid : Nat) (body : List Nat)
deriving DecidableEq

/-- Magic field of a buffered header: u32 little-endian at offset 0. -/
def hdrMagic (buf : List Nat) : Nat := natFromLE (buf.take 4)

/-- Message id field of a buffered header: u32 little-endian at offset 4. -/
def hdrId (buf : List Nat) : Nat := natFromLE ((buf.drop 4).take 4)

/-- Size field of a buffered header: u32 little-endian at offset 8. -/
def hdrSize (buf : List Nat) : Nat := natFromLE ((buf.drop 8).take 4)

/-- Modelled from the spec: the read-side framer state machine of the
missing connection unit (spec 4.4). With at least 12 buffered bytes, parse
the header and verify `magic == 0x504F4D50`, `size ≥ 12`, `size ≤ 256 MiB`;
on violation the connection is poisoned (closed with `ProtocolError`);
otherwise, once the whole frame is buffered, slice out one message and
continue on the remaining bytes. Returns the dispatched frames
(magic, msgid, size, body) and whether the connection was poisoned. -/
def framerFrames (buf : List Nat) :
    List (Nat × Nat × Nat × List Nat) × Bool :=
  if h12 : buf.length < 12 then ([], false)
  else if hok : headerOk (hdrMagic buf) (hdrSize buf) then
    if hsz : buf.length < hdrSize buf then ([], false)
    else
      ((hdrMagic buf, hdrId buf, hdrSize buf,
        (buf.drop 12).take (hdrSize buf - 12)) ::
          (framerFrames (buf.drop (hdrSize buf))).1,
        (framerFrames (buf.drop (hdrSize buf))).2)
  else ([], true)
termination_by buf.length
decreasing_by
  all_goals
    simp only [List.length_drop]
    unfold headerOk at hok
    omega

/-- The event sequence the framer delivers for a buffered byte stream: one
`Msg` per dispatched frame, then exactly one `Disconnected` when the
connection was poisoned by a corrupt prefix. -/
def framerEvents (buf : List Nat) : List Evt :=
  (framerFrames buf).1.map (fun fr => Evt.msg fr.2.1 fr.2.2.2) ++
    (if (framerFrames buf).2 then [Evt.disconnected] else [])

theorem framerFrames_valid : ∀ (n : Nat) (buf : List Nat), buf.length ≤ n →
    ∀ fr ∈ (framerFrames buf).1, headerOk fr.1 fr.2.2.1 := by
  intro n
  induction n with
  | zero =>
    intro buf hlen fr hfr
    rw [framerFrames, dif_pos (by omega)] at hfr
    simp at hfr
  | succ n ih =>
    intro buf hlen fr hfr
    rw [framerFrames] at hfr
    by_cases h12 : buf.length < 12
    · rw [dif_pos h12] at hfr
      simp at hfr
    · rw [dif_neg h12] at hfr
      by_cases hok : headerOk (hdrMagic buf) (hdrSize buf)
      · rw [dif_pos hok] at hfr
        by_cases hsz : buf.length < hdrSize buf
        · rw [dif_pos hsz] at hfr
          simp at hfr
        · rw [dif_neg hsz] at hfr
          simp only [List.mem_cons] at hfr
          rcases hfr with rfl | hmem
          · exact hok
          · refine ih (buf.drop (hdrSize buf)) ?_ fr hmem
            have h12s : 12 ≤ hdrSize buf := hok.2.1
            simp only [List.length_drop]
            omega
      · rw [dif_neg hok] at hfr
        simp at hfr

theorem framer_count_disconnected (buf : List Nat) :
    (framerEvents buf).count Evt.disconnected =
      (if (framerFrames buf).2 then 1 else 0) := by
  unfold framerEvents
  rw [List.count_append]
  have h1 : ((framerFrames buf).1.map
      (fun fr => Evt.msg fr.2.1 fr.2.2.2)).count Evt.disconnected = 0 := by
    rw [List.count_eq_zero]
    simp [List.mem_map]
  rw [h1]
  by_cases hp : (framerFrames buf).2
  · simp [hp]
  · simp [hp]

theorem framer_corrupt (buf : List Nat) (h12 : 12 ≤ buf.length)
    (hbad : ¬ headerOk (hdrMagic buf) (hdrSize buf)) :
    framerEvents buf = [Evt.disconnected] := by
  have he : framerFrames buf = ([], true) := by
    rw [framerFrames, dif_neg (by omega), dif_neg hbad]
  simp [framerEvents, he]

/-- C4: every message the framer dispatches comes from a frame whose header
validated (magic, 12 ≤ size ≤ 256 MiB); the event stream contains a
`Disconnected` exactly when the connection was poisoned, and then exactly
one; and a buffered prefix with an invalid header produces the single
`Disconnected` event and no `Msg` event for the corrupt data. -/
theorem pomp_c4_framer (buf : List Nat) :
    (∀ fr ∈ (framerFrames buf).1, headerOk fr.1 fr.2.2.1) ∧
    ((framerEvents buf).count Evt.disconnected =
      (if (framerFrames buf).2 then 1 else 0)) ∧
    (12 ≤ buf.length → ¬ headerOk (hdrMagic buf) (hdrSize buf) →
      framerEvents buf = [Evt.disconnected]) :=
  ⟨framerFrames_valid buf.length buf (Nat.le_refl _),
   framer_count_disconnected buf, framer_corrupt buf⟩

theorem pomp_c4_framer_witness :
    framerEvents [222, 173, 190, 239, 0, 0, 0, 0, 16, 0, 0, 0] =
      [Evt.disconnected] :=
  (pomp_c4_framer _).2.2 (by decide) (by decide)

/-- Integer width selected by the `l` length modifier: 32 bits when the host
word size is 32, else 64 bits (spec 4.1). -/
def lWidth (ws : Nat) : Nat := if ws = 32 then 32 else 64

/-- Signed integer directive of the given bit width. -/
def sigAt (w : Nat) : ArgType :=
  if w = 8 then .i8 else if w = 16 then .i16 else if w = 64 then .i64
  else .i32

/-- Unsigned integer directive of the given bit width. -/
def unsAt (w : Nat) : ArgType :=
  if w = 8 then .u8 else if w = 16 then .u16 else if w = 64 then .u64
  else .u32

/-- Integer conversion characters: `i`/`d` signed, `u` (and modified `x`)
unsigned; anything else is not an integer conversion. -/
def convInt (w : Nat) (c : Char) : Except Err ArgType :=
  if c = 'i' ∨ c = 'd' then .ok (sigAt w)
  else if c = 'u' ∨ c = 'x' then .ok (unsAt w)
  else .error .invalidFormat

/-- Float conversion characters. -/
def isFloatConv (c : Char) : Bool :=
  c == 'f' || c == 'F' || c == 'g' || c == 'G' || c == 'e' || c == 'E'

/-- Prepend a scanned directive to the directives of the remaining format,
propagating the first error. -/
def withTy (ty : Except Err ArgType) (rest : Except Err (List ArgType)) :
    Except Err (List ArgType) :=
  match ty, rest with
  | .ok t, .ok l => .ok (t :: l)
  | .error e, _ => .error e
  | .ok _, .error e => .error e

/-- Modelled from the spec: the format scanner of the missing format unit
(spec 4.1 and the README format specification), parameterized by the host
word size `ws`. A directive is `%`, an optional length modifier (`hh`, `h`,
`l`, `ll`), then one conversion: `i`/`d` signed and `u` unsigned integers
whose width the modifier selects, with `l` resolving to 32 bits when the
host word size is 32 and to 64 bits otherwise; `x` with a modifier an
unsigned integer, bare `%x` a file descriptor; float conversions
(`f`,`F`,`g`,`G`,`e`,`E`) pick 32 bits bare and 64 bits under `l`;
`%s`/`%ms` strings; `%p` immediately followed by `%u` a buffer pair.
Whitespace between directives is skipped; everything else fails with
`InvalidFormat`. -/
def scanFmt (ws : Nat) : List Char → Except Err (List ArgType)
  | [] => .ok []
  | '%' :: 'h' :: 'h' :: c :: r => withTy (convInt 8 c) (scanFmt ws r)
  | '%' :: 'h' :: c :: r => withTy (convInt 16 c) (scanFmt ws r)
  | '%' :: 'l' :: 'l' :: c :: r => withTy (convInt 64 c) (scanFmt ws r)
  | '%' :: 'l' :: c :: r =>
    if isFloatConv c then withTy (.ok .f64) (scanFmt ws r)
    else withTy (convInt (lWidth ws) c) (scanFmt ws r)
  | '%' :: 'm' :: 's' :: r => withTy (.ok .str) (scanFmt ws r)
  | '%' :: 'p' :: '%' :: 'u' :: r => withTy (.ok .buf) (scanFmt ws r)
  | '%' :: c :: r =>
    if isFloatConv c then withTy (.ok .f32) (scanFmt ws r)
    else if c = 's' then withTy (.ok .str) (scanFmt ws r)
    else if c = 'x' then withTy (.ok .fd) (scanFmt ws r)
    else withTy (convInt 32 c) (scanFmt ws r)
  | c :: r => if c.isWhitespace then scanFmt ws r else .error .invalidFormat

/-- C6: an integer directive with the `l` length modifier resolves to a
32-bit integer when the host word size is 32 and to a 64-bit integer
otherwise, the signedness being determined solely by the conversion
character: `i`/`d` signed, `u` unsigned. -/
theorem pomp_c6_long_int (ws : Nat) (c : Char) (r : List Char) :
    ((c = 'i' ∨ c = 'd') →
      scanFmt ws ('%' :: 'l' :: c :: r) =
        withTy (.ok (if ws = 32 then ArgType.i32 else ArgType.i64))
          (scanFmt ws r)) ∧
    (c = 'u' →
      scanFmt ws ('%' :: 'l' :: c :: r) =
        withTy (.ok (if ws = 32 then ArgType.u32 else ArgType.u64))
          (scanFmt ws r)) := by
  constructor
  · rintro (rfl | rfl) <;> by_cases hws : ws = 32 <;>
      simp [scanFmt, convInt, sigAt, unsAt, lWidth, isFloatConv, hws]
  · rintro rfl
    by_cases hws : ws = 32 <;>
      simp [scanFmt, convInt, sigAt, unsAt, lWidth, isFloatConv, hws]

theorem pomp_c6_long_int_witness :
    scanFmt 32 ['%', 'l', 'i'] = .ok [ArgType.i32] ∧
    scanFmt 64 ['%', 'l', 'i'] = .ok [ArgType.i64] ∧
    scanFmt 32 ['%', 'l', 'u'] = .ok [ArgType.u32] ∧
    scanFmt 64 ['%', 'l', 'u'] = .ok [ArgType.u64] := by
  refine ⟨?_, ?_, ?_, ?_⟩
  · have h := (pomp_c6_long_int 32 'i' []).1 (Or.inl rfl)
    simpa [scanFmt, withTy] using h
  · have h := (pomp_c6_long_int 64 'i' []).1 (Or.inl rfl)
    simpa [scanFmt, withTy] using h
  · have h := (pomp_c6_long_int 32 'u' []).2 rfl
    simpa [scanFmt, withTy] using h
  · have h := (pomp_c6_long_int 64 'u' []).2 rfl
    simpa [scanFmt, withTy] using h

/-- A decoder object: the message's payload buffer, the read position and
the not-yet-consumed descriptor list (spec 4.2). -/
structure PompDec where
  payload : List Nat
  pos : Nat
  fds : List Int
deriving DecidableEq

/-- Modelled from the spec: `pomp_decoder_read_buf` of the missing decoder
unit (libpomp.h lines 1068-1087): parse the BUF record at the current
position and return a freshly allocated copy of the contents (with its
size), owned and freed by the caller. -/
def pomp_decoder_read_buf (d : PompDec) :
    Except Err ((List Nat × Nat) × PompDec) :=
  match d.payload.drop d.pos with
  | [] => .error .invalidData
  | t :: r1 =>
    if t = tagOf .buf then
      match readN 4 r1 with
      | .error e => .error e
      | .ok (lb, r2) =>
        if natFromLE lb ≤ r2.length then
          .ok ((r2.take (natFromLE lb), natFromLE lb),
            {d with pos := d.pos + 5 + natFromLE lb})
        else .error .invalidData
    else .error .typeMismatch

/-- Modelled from the spec: `pomp_decoder_read_cbuf`: the same parse, but
without allocation or copy — it returns the offset of the contents inside
the message's own buffer and the size, a view whose lifetime is that of the
message. -/
def pomp_decoder_read_cbuf (d : PompDec) :
    Except Err ((Nat × Nat) × PompDec) :=
  match d.payload.drop d.pos with
  | [] => .error .invalidData
  | t :: r1 =>
    if t = tagOf .buf then
      match readN 4 r1 with
      | .error e => .error e
      | .ok (lb, r2) =>
        if natFromLE lb ≤ r2.length then
          .ok ((d.pos + 5, natFromLE lb),
            {d with pos := d.pos + 5 + natFromLE lb})
        else .error .invalidData
    else .error .typeMismatch

/-- Modelled from the spec: `pomp_decoder_read_str` (the `%ms` directive):
parse the STR record at the current position and return a freshly allocated
copy of the string contents, freed by the caller. -/
def pomp_decoder_read_str (d : PompDec) : Except Err (List Nat × PompDec) :=
  match d.payload.drop d.pos with
  | [] => .error .invalidData
  | t :: r1 =>
    if t = tagOf .str then
      match readN 4 r1 with
      | .error e => .error e
      | .ok (lb, r2) =>
        match readN (natFromLE lb) r2 with
        | .error e => .error e
        | .ok (sb, _) =>
          if validStrBytes sb then
            .ok (sb.dropLast, {d with pos := d.pos + 5 + natFromLE lb})
          else .error .invalidData
    else .error .typeMismatch

/-- Modelled from the spec: `pomp_decoder_read_cstr`: the same parse, but
returning the offset of the NUL-terminated string inside the message's own
buffer — a view whose lifetime is that of the message. -/
def pomp_decoder_read_cstr (d : PompDec) : Except Err (Nat × PompDec) :=
  match d.payload.drop d.pos with
  | [] => .error .invalidData
  | t :: r1 =>
    if t = tagOf .str then
      match readN 4 r1 with
      | .error e => .error e
      | .ok (lb, r2) =>
        match readN (natFromLE lb) r2 with
        | .error e => .error e
        | .ok (sb, _) =>
          if validStrBytes sb then
            .ok (d.pos + 5, {d with pos := d.pos + 5 + natFromLE lb})
          else .error .invalidData
    else .error .typeMismatch

theorem drop_pos_five (d : PompDec) :
    (d.payload.drop d.pos).drop 5 = d.payload.drop (d.pos + 5) := by
  rw [List.drop_drop, Nat.add_comm]

theorem drop_four_append (xs ys : List Nat) (hx : xs.length = 4) :
    (xs ++ ys).drop 4 = ys := by
  rw [← hx, drop_len_append]

/-- C7: on a message whose current record is a BUF (resp. STR), the
allocating reads return a copy of the contents, equal to them as byte
sequences and independent of the buffer, while the view reads return the
offset and size of the very same bytes inside the message's own buffer, and
both advance the decoder identically. -/
theorem pomp_c7_views (d : PompDec) :
    (∀ (c res : List Nat), d.payload.drop d.pos =
        tagOf .buf :: (natLE 4 c.length ++ (c ++ res)) →
      c.length < 4294967296 →
      pomp_decoder_read_buf d =
        .ok ((c, c.length), {d with pos := d.pos + 5 + c.length}) ∧
      pomp_decoder_read_cbuf d =
        .ok ((d.pos + 5, c.length), {d with pos := d.pos + 5 + c.length}) ∧
      (d.payload.drop (d.pos + 5)).take c.length = c) ∧
    (∀ (s res : List Nat), d.payload.drop d.pos =
        tagOf .str :: (natLE 4 (s.length + 1) ++ ((s ++ [0]) ++ res)) →
      s.length + 1 < 4294967296 → (∀ b ∈ s, b ≠ 0) →
      pomp_decoder_read_str d =
        .ok (s, {d with pos := d.pos + 5 + (s.length + 1)}) ∧
      pomp_decoder_read_cstr d =
        .ok (d.pos + 5, {d with pos := d.pos + 5 + (s.length + 1)}) ∧
      (d.payload.drop (d.pos + 5)).take (s.length + 1) = s ++ [0]) := by
  constructor
  · intro c res hrec hlen
    have h1 : readN 4 (natLE 4 c.length ++ (c ++ res)) =
        .ok (natLE 4 c.length, c ++ res) :=
      readN_append _ _ _ (length_natLE 4 _)
    have h2 : natFromLE (natLE 4 c.length) = c.length :=
      natFromLE_natLE4 _ hlen
    have hview : (d.payload.drop (d.pos + 5)).take c.length = c := by
      rw [← drop_pos_five, hrec, List.drop_succ_cons,
        drop_four_append _ _ (length_natLE 4 _), take_len_append]
    refine ⟨?_, ?_, hview⟩
    · simp [pomp_decoder_read_buf, hrec, h1, h2, take_len_append]
    · simp [pomp_decoder_read_cbuf, hrec, h1, h2]
  · intro s res hrec hlen hnz
    have h1 : readN 4 (natLE 4 (s.length + 1) ++ ((s ++ [0]) ++ res)) =
        .ok (natLE 4 (s.length + 1), (s ++ [0]) ++ res) :=
      readN_append _ _ _ (length_natLE 4 _)
    have h2 : natFromLE (natLE 4 (s.length + 1)) = s.length + 1 :=
      natFromLE_natLE4 _ hlen
    have h3 : readN (s.length + 1) ((s ++ [0]) ++ res) =
        .ok (s ++ [0], res) :=
      readN_append _ _ _ (by simp)
    have h4 : validStrBytes (s ++ [0]) = true := validStrBytes_append s hnz
    have h1n := h1
    have h3n := h3
    simp only [List.append_assoc, List.singleton_append] at h1n h3n
    have hview : (d.payload.drop (d.pos + 5)).take (s.length + 1) =
        s ++ [0] := by
      rw [← drop_pos_five, hrec, List.drop_succ_cons,
        drop_four_append _ _ (length_natLE 4 _)]
      rw [show s.length + 1 = (s ++ [0]).length by simp, take_len_append]
    refine ⟨?_, ?_, hview⟩
    · simp [pomp_decoder_read_str, hrec, h1n, h2, h3n, h4,
        List.dropLast_concat]
    · simp [pomp_decoder_read_cstr, hrec, h1n, h2, h3n, h4]

theorem pomp_c7_views_witness :
    pomp_decoder_read_buf ⟨[10, 2, 0, 0, 0, 5, 6], 0, []⟩ =
      .ok (([5, 6], 2), ⟨[10, 2, 0, 0, 0, 5, 6], 7, []⟩) ∧
    pomp_decoder_read_cbuf ⟨[10, 2, 0, 0, 0, 5, 6], 0, []⟩ =
      .ok ((5, 2), ⟨[10, 2, 0, 0, 0, 5, 6], 7, []⟩) ∧
    (([10, 2, 0, 0, 0, 5, 6] : List Nat).drop 5).take 2 = [5, 6] ∧
    pomp_decoder_read_str ⟨[9, 3, 0, 0, 0, 65, 66, 0], 0, []⟩ =
      .ok ([65, 66], ⟨[9, 3, 0, 0, 0, 65, 66, 0], 8, []⟩) ∧
    pomp_decoder_read_cstr ⟨[9, 3, 0, 0, 0, 65, 66, 0], 0, []⟩ =
      .ok (5, ⟨[9, 3, 0, 0, 0, 65, 66, 0], 8, []⟩) := by
  obtain ⟨hb1, hb2, hb3⟩ :=
    (pomp_c7_views ⟨[10, 2, 0, 0, 0, 5, 6], 0, []⟩).1 [5, 6] []
      (by rfl) (by decide)
  obtain ⟨hs1, hs2, hs3⟩ :=
    (pomp_c7_views ⟨[9, 3, 0, 0, 0, 65, 66, 0], 0, []⟩).2 [65, 66] []
      (by rfl) (by decide) (by decide)
  exact ⟨hb1, hb2, hb3, hs1, hs2⟩

end Pomp
